import Mathlib

/-!
Verification of the NGS shapefile-archive ingestion pipeline scripts.

The development shallowly embeds the Python sources under `src/Downloads/`:
bytes are modelled as `List Nat` (each entry a byte value), Python strings as
`List Char`, file reads as pure list operations over an explicit byte list,
and Python exceptions as `Except String`.  Definitions are translated from
the scripts `ngs_sf_archives_curl_downloader_dbf_to_csv_filtered_v2_2.py`
(the full-featured DBF decoder, abbreviated v2_2 below),
`ngs_sf_archives_curl_downloader_dbf_to_csv_filtered_v2_4.py` (v2_4),
`ngs_sf_archives_direct_downloader_with_dbf_extract_v1_5.py` (v1_5) and
`ngs_sf_archives_curl_downloader_with_dbf_extract_v1_8.py` (v1_8).
-/

namespace Spec2Proof

/-- Shorthand turning a Lean string literal into the `List Char` used to
model Python strings. -/
def S (s : String) : List Char := s.toList

/-- Byte values of an ASCII string literal, used to write concrete byte
buffers (Python `bytes` literals) compactly. -/
def B (s : String) : List Nat := s.toList.map Char.toNat

/-- Python `str.isspace` for characters in the Latin-1 range: the whitespace
characters recognised by `str.strip` and by the regex class backslash-s are
9 to 13 (tab, newline, vertical tab, form feed, carriage return),
28 to 31 (file/group/record/unit separators), 32 (space),
133 (next line) and 160 (no-break space). -/
def pyIsSpace (c : Char) : Bool :=
  (9 ≤ c.toNat ∧ c.toNat ≤ 13) ∨ (28 ≤ c.toNat ∧ c.toNat ≤ 32) ∨
    c.toNat = 133 ∨ c.toNat = 160

/-- Python `str.lstrip()` with no argument: drop leading whitespace. -/
def pyLStrip (s : List Char) : List Char := s.dropWhile pyIsSpace

/-- Python `str.rstrip()` with no argument: drop trailing whitespace. -/
def pyRStrip (s : List Char) : List Char :=
  ((s.reverse.dropWhile pyIsSpace)).reverse

/-- Python `str.strip()` with no argument: drop leading and trailing
whitespace. -/
def pyStrip (s : List Char) : List Char := pyRStrip (pyLStrip s)

/-- Python `bytes.decode("latin-1")` (and `errors="replace"` or
`errors="ignore"`, which never fire for Latin-1, a total single-byte
encoding): byte value `b` becomes the character with code point `b`.
The `% 256` records that entries of the modelled buffer are bytes. -/
def latin1 (raw : List Nat) : List Char := raw.map (fun b => Char.ofNat (b % 256))

/-- Decidable equality for `Except`, to evaluate the embedded fallible
functions at concrete inputs. -/
instance {ε α : Type} [DecidableEq ε] [DecidableEq α] :
    DecidableEq (Except ε α) := fun a b =>
  match a, b with
  | .error e, .error f =>
    if h : e = f then isTrue (congrArg Except.error h)
    else isFalse (fun hh => h (Except.error.inj hh))
  | .error _, .ok _ => isFalse (fun hh => Except.noConfusion hh)
  | .ok _, .error _ => isFalse (fun hh => Except.noConfusion hh)
  | .ok x, .ok y =>
    if h : x = y then isTrue (congrArg Except.ok h)
    else isFalse (fun hh => h (Except.ok.inj hh))

/-! ## ContentValidator (v1_5, lines 109-117 and 170-178)

`_is_zip_magic` and `_looks_like_html` classify the first bytes of a
download; `_download_zip_validated` consults them in that order, giving the
three-way classification the spec calls `Valid` /
`LooksLikeErrorDocument` / `Unrecognized`. -/

/-- Python `bytes.lstrip()` with no argument strips the ASCII whitespace
bytes 9 to 13 and 32 (bytes methods are ASCII-only). -/
def bytesLStrip (b : List Nat) : List Nat :=
  b.dropWhile (fun x => (9 ≤ x ∧ x ≤ 13) ∨ x = 32)

/-- Python `bytes.lower()`: ASCII uppercase letters are mapped to lowercase,
all other byte values are unchanged. -/
def bytesLower (b : List Nat) : List Nat :=
  b.map (fun x => if 65 ≤ x ∧ x ≤ 90 then x + 32 else x)

/-- Python `pat in b` for `bytes`: `pat` occurs as a contiguous
subsequence of `b` (checked as a prefix at every start position). -/
def hasSub (pat : List Nat) : List Nat → Bool
  | [] => pat.isEmpty
  | x :: rest => ((x :: rest).take pat.length = pat) ∨ hasSub pat rest

/-- Embedding of `_is_zip_magic` (v1_5 line 109): `b.startswith(b"PK")`. -/
def isZipMagic (b : List Nat) : Bool := b.take 2 = B "PK"

/-- Embedding of `_looks_like_html` (v1_5 lines 113-117):
`head = b.lstrip().lower()` and then
`head.startswith(b"<") and (b"<html" in head[:300] or b"<!doctype" in head[:300] or b"<?xml" in head[:300])`. -/
def looksLikeHtml (b : List Nat) : Bool :=
  let head := bytesLower (bytesLStrip b)
  head.take 1 = B "<" ∧
    (hasSub (B "<html") (head.take 300) ∨
      hasSub (B "<!doctype") (head.take 300) ∨
      hasSub (B "<?xml") (head.take 300))

/-- Three-way classification of a downloaded byte buffer (spec section 4.1). -/
inductive Classification
  | Valid
  | LooksLikeErrorDocument
  | Unrecognized
  deriving DecidableEq, Repr

/-- Embedding of the classification order of `_download_zip_validated`
(v1_5 lines 170-178): the zip magic check first, the HTML heuristic only
when the magic check fails, everything else unrecognized. -/
def classify (b : List Nat) : Classification :=
  if isZipMagic b then .Valid
  else if looksLikeHtml b then .LooksLikeErrorDocument
  else .Unrecognized

/-- Modelled from the claim C3 wording (not from the source): the buffer,
after stripping leading whitespace, has a case-insensitive PREFIX equal to
one of the markup openers. -/
def claimOpenerAtStart (b : List Nat) : Bool :=
  let head := bytesLower (bytesLStrip b)
  head.take 5 = B "<html" ∨ head.take 9 = B "<!doctype" ∨ head.take 5 = B "<?xml"

/-- Helper: the zip-magic test is exactly "the first two bytes are
0x50 0x4B". -/
theorem isZipMagic_iff (b : List Nat) :
    isZipMagic b = true ↔ 2 ≤ b.length ∧ b.getD 0 0 = 80 ∧ b.getD 1 0 = 75 := by
  match b with
  | [] => simp [isZipMagic, B]
  | [x] => simp [isZipMagic, B]
  | x :: y :: rest => simp [isZipMagic, B, Nat.succ_le_succ]

/-- Helper: the HTML heuristic is exactly "the stripped, lowercased buffer
starts with the byte of the character less-than and one of the three openers
occurs within its first 300 bytes". -/
theorem looksLikeHtml_iff (b : List Nat) :
    looksLikeHtml b = true ↔
      (0 < (bytesLower (bytesLStrip b)).length ∧
        (bytesLower (bytesLStrip b)).getD 0 0 = 60 ∧
        (hasSub (B "<html") ((bytesLower (bytesLStrip b)).take 300) = true ∨
          hasSub (B "<!doctype") ((bytesLower (bytesLStrip b)).take 300) = true ∨
          hasSub (B "<?xml") ((bytesLower (bytesLStrip b)).take 300) = true)) := by
  unfold looksLikeHtml
  match h : bytesLower (bytesLStrip b) with
  | [] => simp [B]
  | x :: rest => simp [B, and_assoc]

/-- C3, counterexample: on the buffer `<a><html>` the classifier returns
`LooksLikeErrorDocument` although the stripped buffer's case-insensitive
prefix matches none of the markup openers (and the buffer is not `Valid`),
so the claimed if-and-only-if characterisation fails. -/
theorem contentValidator_claim3_counterexample :
    classify (B "<a><html>") = Classification.LooksLikeErrorDocument ∧
      claimOpenerAtStart (B "<a><html>") = false ∧
      isZipMagic (B "<a><html>") = false := by
  refine ⟨by decide, by decide, by decide⟩

/-- C3, amended: a buffer is classified `Valid` iff its first two bytes are
0x50 0x4B; it is classified `LooksLikeErrorDocument` iff it is not `Valid`
and, after stripping leading ASCII whitespace and lowercasing, it starts
with the byte `<` (60) and one of the openers `<html`, `<!doctype`, `<?xml`
occurs within the first 300 bytes of the stripped buffer; every other
buffer is `Unrecognized`. -/
theorem contentValidator_classification (b : List Nat) :
    (classify b = Classification.Valid ↔
      2 ≤ b.length ∧ b.getD 0 0 = 80 ∧ b.getD 1 0 = 75) ∧
    (classify b = Classification.LooksLikeErrorDocument ↔
      ¬(2 ≤ b.length ∧ b.getD 0 0 = 80 ∧ b.getD 1 0 = 75) ∧
        (0 < (bytesLower (bytesLStrip b)).length ∧
          (bytesLower (bytesLStrip b)).getD 0 0 = 60 ∧
          (hasSub (B "<html") ((bytesLower (bytesLStrip b)).take 300) = true ∨
            hasSub (B "<!doctype") ((bytesLower (bytesLStrip b)).take 300) = true ∨
            hasSub (B "<?xml") ((bytesLower (bytesLStrip b)).take 300) = true))) ∧
    (classify b = Classification.Unrecognized ↔
      ¬(2 ≤ b.length ∧ b.getD 0 0 = 80 ∧ b.getD 1 0 = 75) ∧
        ¬(0 < (bytesLower (bytesLStrip b)).length ∧
          (bytesLower (bytesLStrip b)).getD 0 0 = 60 ∧
          (hasSub (B "<html") ((bytesLower (bytesLStrip b)).take 300) = true ∨
            hasSub (B "<!doctype") ((bytesLower (bytesLStrip b)).take 300) = true ∨
            hasSub (B "<?xml") ((bytesLower (bytesLStrip b)).take 300) = true))) := by
  rw [← isZipMagic_iff, ← looksLikeHtml_iff]
  unfold classify
  rcases hz : isZipMagic b <;> rcases hh : looksLikeHtml b <;> simp [hz, hh]

/-! ## RowProjector value cleaning (v2_2 lines 243-250, v2_4 lines 138-147)

`_clean_value` removes double quotes, strips, then replaces every maximal
run matched by the whitespace regex with a single space. -/

/-- Embedding of `_WS_RE.sub(" ", s)` for the regex of one-or-more
whitespace characters: every maximal run of whitespace characters is
replaced by a single space (the last character of the run becomes the
space, the earlier ones are dropped). -/
def collapseWs : List Char → List Char
  | [] => []
  | [c] => if pyIsSpace c then [' '] else [c]
  | c :: d :: rest =>
    if pyIsSpace c && pyIsSpace d then collapseWs (d :: rest)
    else (if pyIsSpace c then ' ' else c) :: collapseWs (d :: rest)

/-- Embedding of `_clean_value` (v2_2 lines 243-250) on text input: remove
every double-quote character, strip, then collapse whitespace runs.  (The
Python function first applies `str` to its argument and maps `None` to the
empty string; the claims only concern text inputs, modelled directly.) -/
def cleanValue (v : List Char) : List Char :=
  collapseWs (pyStrip (v.filter (fun c => c != '"')))

/-- Equation lemma for the two-cons case of `collapseWs`. -/
theorem collapseWs_cons_cons (c d : Char) (l : List Char) :
    collapseWs (c :: d :: l) =
      if pyIsSpace c && pyIsSpace d then collapseWs (d :: l)
      else (if pyIsSpace c then ' ' else c) :: collapseWs (d :: l) := rfl

/-- Collapsing whitespace runs commutes with dropping leading whitespace. -/
theorem collapseWs_dropWhile (s : List Char) :
    collapseWs (s.dropWhile pyIsSpace) = (collapseWs s).dropWhile pyIsSpace := by
  have hsp : pyIsSpace ' ' = true := by decide
  induction s with
  | nil => rfl
  | cons c rest ih =>
    match rest, ih with
    | [], _ => by_cases hc : pyIsSpace c <;> simp [collapseWs, hc, hsp]
    | d :: r, ih =>
      by_cases hc : pyIsSpace c
      · by_cases hd : pyIsSpace d
        · simp only [List.dropWhile_cons, collapseWs_cons_cons, hc, hd]
          simp only [Bool.and_self, if_true]
          simpa [List.dropWhile_cons, hd] using ih
        · simp only [List.dropWhile_cons, collapseWs_cons_cons, hc, hd]
          simp only [Bool.and_false, Bool.false_eq_true, if_false, if_true,
            List.dropWhile_cons, hsp]
          simpa [List.dropWhile_cons, hd] using ih
      · simp [List.dropWhile_cons, hc, collapseWs_cons_cons]

/-- Appending one character to the right either merges into a trailing
whitespace run or appends the (possibly space-converted) character. -/
theorem collapseWs_snoc (s : List Char) (c : Char) :
    collapseWs (s ++ [c]) =
      if s.getLast?.any pyIsSpace && pyIsSpace c then collapseWs s
      else collapseWs s ++ [if pyIsSpace c then ' ' else c] := by
  induction s with
  | nil => by_cases hc : pyIsSpace c <;> simp [collapseWs, hc]
  | cons e rest ih =>
    match rest, ih with
    | [], _ =>
      by_cases he : pyIsSpace e <;> by_cases hc : pyIsSpace c <;>
        simp [collapseWs, he, hc]
    | d :: r, ih =>
      have h1 : (e :: d :: r) ++ [c] = e :: d :: (r ++ [c]) := rfl
      have h2 : d :: (r ++ [c]) = (d :: r) ++ [c] := rfl
      rw [h1, collapseWs_cons_cons, h2, ih, collapseWs_cons_cons,
        List.getLast?_cons_cons]
      by_cases he : pyIsSpace e <;> by_cases hd : pyIsSpace d <;>
        by_cases hany : Option.any pyIsSpace (d :: r).getLast? <;>
          by_cases hc : pyIsSpace c <;> simp [he, hd, hany, hc]

/-- Collapsing whitespace runs commutes with list reversal. -/
theorem collapseWs_reverse (s : List Char) :
    collapseWs s.reverse = (collapseWs s).reverse := by
  induction s with
  | nil => rfl
  | cons c rest ih =>
    match rest, ih with
    | [], _ => by_cases hc : pyIsSpace c <;> simp [collapseWs, hc]
    | d :: r, ih =>
      have hgl : ((d :: r).reverse).getLast? = some d := by
        rw [List.getLast?_reverse]; rfl
      rw [List.reverse_cons, collapseWs_snoc, hgl, ih, collapseWs_cons_cons]
      by_cases hc : pyIsSpace c <;> by_cases hd : pyIsSpace d <;>
        simp [hc, hd]

/-- Collapsing whitespace runs commutes with stripping both ends. -/
theorem collapseWs_pyStrip (s : List Char) :
    collapseWs (pyStrip s) = pyStrip (collapseWs s) := by
  unfold pyStrip pyRStrip pyLStrip
  rw [collapseWs_reverse, collapseWs_dropWhile, collapseWs_reverse,
    collapseWs_dropWhile]

/-- C9: for every input value, `_clean_value` equals the claimed
composition — remove all double quotes, then collapse every whitespace run
to a single space, then trim both ends — and on the concrete input
given in the spec it produces `12 foo`.  (The code strips before
collapsing; the two orders agree, which is the content of the first
conjunct.) -/
theorem cleanValue_removes_quotes_collapses_trims :
    (∀ v : List Char,
        cleanValue v = pyStrip (collapseWs (v.filter (fun c => c != '"')))) ∧
      cleanValue (S "  \"12  foo\"  ") = S "12 foo" :=
  ⟨fun v => collapseWs_pyStrip _, by decide⟩

/-! ## TableDecoder: header and field descriptors
(v2_2 `_parse_dbf_header_and_fields`, lines 154-178; v2_4 lines 95-110)

The open file handle is modelled by the full byte list together with pure
`take`/`drop` arithmetic for the sequential reads; the function returns the
values the Python version returns plus the read position that
`f.seek(header_len)` establishes. -/

/-- Little-endian 2-byte unsigned integer, as `struct.unpack("<H", _)`. -/
def le16 (b0 b1 : Nat) : Nat := b0 + 256 * b1

/-- Little-endian 4-byte unsigned integer, as `struct.unpack("<I", _)`. -/
def le32 (b0 b1 b2 b3 : Nat) : Nat :=
  b0 + 256 * b1 + 65536 * b2 + 16777216 * b3

/-- One DBF field descriptor: name, type character, length, decimal count. -/
structure FieldDescriptor where
  name : List Char
  ftype : Char
  flen : Nat
  fdec : Nat
  deriving DecidableEq, Repr

/-- Embedding of the per-descriptor extraction (v2_2 lines 171-175): name is
bytes 0-10 cut at the first NUL, decoded as ASCII with errors="ignore"
(bytes of value at least 128 are dropped) and stripped; the type is
`chr(desc[11])`; the length and decimal count are bytes 16 and 17. -/
def mkField (d : List Nat) : FieldDescriptor :=
  { name := pyStrip (((d.take 11).takeWhile (fun b => b ≠ 0)).filterMap
      (fun b => if b < 128 then some (Char.ofNat b) else none))
    ftype := Char.ofNat (d.getD 11 0 % 256)
    flen := d.getD 16 0
    fdec := d.getD 17 0 }

/-- Embedding of the descriptor loop of `_parse_dbf_header_and_fields`
(v2_2 lines 163-176): repeatedly read 32 bytes; raise on a short read; stop
at a block whose first byte is 0x0D; otherwise record the descriptor. -/
def parseFields (rest : List Nat) : Except String (List FieldDescriptor) :=
  if h : rest.length < 32 then
    .error "Unexpected EOF reading DBF field descriptors."
  else if (rest.take 32).getD 0 0 = 13 then .ok []
  else
    match parseFields (rest.drop 32) with
    | .error e => .error e
    | .ok fs => .ok (mkField (rest.take 32) :: fs)
termination_by rest.length
decreasing_by simp only [List.length_drop]; omega

/-- Embedding of `_parse_dbf_header_and_fields` (v2_2 lines 154-178): read
the 32-byte table header; record count from bytes 4-7 (little-endian
4-byte), header length from bytes 8-9, record length from bytes 10-11
(little-endian 2-byte each); then the descriptor loop; then
`f.seek(header_len)`.  The result is (record count, record length, fields,
read position). -/
def parseDbfHeader (data : List Nat) :
    Except String (Nat × Nat × List FieldDescriptor × Nat) :=
  let header := data.take 32
  if header.length < 32 then .error "File too short to be a DBF."
  else
    let numRecords := le32 (header.getD 4 0) (header.getD 5 0)
      (header.getD 6 0) (header.getD 7 0)
    let headerLen := le16 (header.getD 8 0) (header.getD 9 0)
    let recordLen := le16 (header.getD 10 0) (header.getD 11 0)
    match parseFields (data.drop 32) with
    | .error e => .error e
    | .ok fs => .ok (numRecords, recordLen, fs, headerLen)

/-- Helper: `getD` through `take`. -/
theorem getD_take (l : List Nat) (n i : Nat) (h : i < n) :
    (l.take n).getD i 0 = l.getD i 0 := by
  simp [List.getD_eq_getElem?_getD, List.getElem?_take, h]

/-- Helper: `getD` through `drop`. -/
theorem getD_drop (l : List Nat) (n i : Nat) :
    (l.drop n).getD i 0 = l.getD (n + i) 0 := by
  simp [List.getD_eq_getElem?_getD, List.getElem?_drop]

/-- Helper: `getD` on the left part of an append. -/
theorem getD_append_left (l l' : List Nat) (i : Nat) (h : i < l.length) :
    (l ++ l').getD i 0 = l.getD i 0 := by
  simp [List.getD_eq_getElem?_getD, List.getElem?_append_left h]

/-- The descriptor loop on a well-formed descriptor area — a run of
32-byte blocks none of which starts with 0x0D, followed by at least
32 remaining bytes the first of which is 0x0D — returns exactly the
descriptors of the blocks, in order. -/
theorem parseFields_wellFormed (blocks : List (List Nat)) (tail : List Nat)
    (hblocks : ∀ b ∈ blocks, b.length = 32 ∧ b.getD 0 0 ≠ 13)
    (htail : 32 ≤ tail.length) (hterm : tail.getD 0 0 = 13) :
    parseFields (blocks.flatten ++ tail) = .ok (blocks.map mkField) := by
  induction blocks with
  | nil =>
    rw [List.flatten_nil, List.nil_append, parseFields]
    have h1 : ¬ tail.length < 32 := by omega
    have h2 : (tail.take 32).getD 0 0 = 13 := by
      rw [getD_take _ _ _ (by omega)]; exact hterm
    rw [dif_neg h1, if_pos h2]
    rfl
  | cons b bs ih =>
    obtain ⟨hb32, hb13⟩ := hblocks b (by simp)
    have hshape : (b :: bs).flatten ++ tail = b ++ (bs.flatten ++ tail) := by
      simp [List.flatten_cons, List.append_assoc]
    rw [hshape, parseFields]
    have hlen : (b ++ (bs.flatten ++ tail)).length = 32 + (bs.flatten ++ tail).length := by
      simp [hb32]
    have h1 : ¬ (b ++ (bs.flatten ++ tail)).length < 32 := by omega
    rw [dif_neg h1]
    have htake : (b ++ (bs.flatten ++ tail)).take 32 = b := List.take_left' hb32
    have hdrop : (b ++ (bs.flatten ++ tail)).drop 32 = bs.flatten ++ tail :=
      List.drop_left' hb32
    rw [htake, if_neg hb13, hdrop, ih (fun x hx => hblocks x (by simp [hx]))]
    rfl

/-- C1: on every well-formed table file — a 32-byte header, then
consecutive 32-byte field-descriptor blocks none of which starts with 0x0D,
then a terminator region of at least 32 bytes whose first byte is 0x0D —
the header decoder succeeds and returns: record count = the little-endian
4-byte unsigned integer at file offsets 4-7, record length = the
little-endian 2-byte unsigned integer at offsets 10-11, the descriptor list
obtained from the 32-byte blocks in order (name = bytes 0-10 cut at the
first NUL and trimmed, type = byte 11, length = byte 16, decimal count =
byte 17), and the read position = the header length, the little-endian
2-byte unsigned integer at offsets 8-9. -/
theorem decodeHeader_wellFormed (hdr : List Nat) (blocks : List (List Nat))
    (tail : List Nat) (hhdr : hdr.length = 32)
    (hblocks : ∀ b ∈ blocks, b.length = 32 ∧ b.getD 0 0 ≠ 13)
    (htail : 32 ≤ tail.length) (hterm : tail.getD 0 0 = 13) :
    parseDbfHeader (hdr ++ blocks.flatten ++ tail) =
      .ok (le32 ((hdr ++ blocks.flatten ++ tail).getD 4 0)
          ((hdr ++ blocks.flatten ++ tail).getD 5 0)
          ((hdr ++ blocks.flatten ++ tail).getD 6 0)
          ((hdr ++ blocks.flatten ++ tail).getD 7 0),
        le16 ((hdr ++ blocks.flatten ++ tail).getD 10 0)
          ((hdr ++ blocks.flatten ++ tail).getD 11 0),
        blocks.map mkField,
        le16 ((hdr ++ blocks.flatten ++ tail).getD 8 0)
          ((hdr ++ blocks.flatten ++ tail).getD 9 0)) := by
  have hassoc : hdr ++ blocks.flatten ++ tail = hdr ++ (blocks.flatten ++ tail) :=
    List.append_assoc hdr blocks.flatten tail
  have htake : (hdr ++ blocks.flatten ++ tail).take 32 = hdr := by
    rw [hassoc]; exact List.take_left' hhdr
  have hdrop : (hdr ++ blocks.flatten ++ tail).drop 32 = blocks.flatten ++ tail := by
    rw [hassoc]; exact List.drop_left' hhdr
  have hget : ∀ i, i < 32 →
      (hdr ++ blocks.flatten ++ tail).getD i 0 = hdr.getD i 0 := by
    intro i hi
    rw [hassoc]
    exact getD_append_left hdr _ i (by omega)
  unfold parseDbfHeader
  rw [htake, hdrop]
  have h1 : ¬ hdr.length < 32 := by omega
  rw [if_neg h1, parseFields_wellFormed blocks tail hblocks htail hterm]
  rw [hget 4 (by omega), hget 5 (by omega), hget 6 (by omega),
    hget 7 (by omega), hget 8 (by omega), hget 9 (by omega),
    hget 10 (by omega), hget 11 (by omega)]

/-- Concrete well-formed header for the C1 witness: version byte, record
count 2, header length 97, record length 5, padding to 32 bytes. -/
def wHdr : List Nat := [3, 0, 0, 0, 2, 0, 0, 0, 97, 0, 5, 0] ++ List.replicate 20 0

/-- Concrete descriptor block for the C1 witness: name `AB`, type `C`,
length 4, decimal count 0. -/
def wBlock : List Nat :=
  B "AB" ++ List.replicate 9 0 ++ [67] ++ List.replicate 4 0 ++ [4, 0] ++
    List.replicate 14 0

/-- Concrete terminator region for the C1 witness. -/
def wTail : List Nat := 13 :: List.replicate 31 0

/-- Witness for C1 at a concrete well-formed one-descriptor file. -/
theorem decodeHeader_wellFormed_witness :
    parseDbfHeader (wHdr ++ [wBlock].flatten ++ wTail) =
      .ok (2, 5, [{ name := S "AB", ftype := 'C', flen := 4, fdec := 0 }], 97) := by
  have h := decodeHeader_wellFormed wHdr [wBlock] wTail (by decide)
    (by decide) (by decide) (by decide)
  exact h.trans (congrArg Except.ok (by decide))

/-! ## TableDecoder: field values (v2_2 `_parse_dbf_value`, lines 181-211) -/

/-- Decoded field value.  The `float` constructor carries the accepted
literal text; no claim depends on its numeric value. -/
inductive Value
  | str (s : List Char)
  | int (n : Int)
  | float (s : List Char)
  | bool (b : Bool)
  deriving DecidableEq, Repr

/-- ASCII decimal digit test. -/
def isDigit09 (c : Char) : Bool := 48 ≤ c.toNat ∧ c.toNat ≤ 57

/-- Python `str.isdigit` for single characters in the Latin-1 range: the
ASCII digits and the superscript digits at code points 178, 179 and 185. -/
def isPyDigit (c : Char) : Bool :=
  isDigit09 c ∨ c.toNat = 178 ∨ c.toNat = 179 ∨ c.toNat = 185

/-- Value of a nonempty run of ASCII decimal digits; `none` otherwise.
This is `int()` restricted to unsigned digit runs. -/
def decDigits? (s : List Char) : Option Nat :=
  if s ≠ [] ∧ s.all isDigit09 then
    some (s.foldl (fun a c => 10 * a + (c.toNat - 48)) 0)
  else none

/-- Python `int(st)` on an already-stripped string: optional sign then a
digit run.  (Underscored literal forms are not modelled; every use in the
source sits inside try/except and no claim depends on that boundary.) -/
def pyInt? (s : List Char) : Option Int :=
  match s with
  | '+' :: rest => (decDigits? rest).map (fun n => (n : Int))
  | '-' :: rest => (decDigits? rest).map (fun n => -(n : Int))
  | _ => (decDigits? s).map (fun n => (n : Int))

/-- Python `float(st)` acceptance on an already-stripped string, decimal
forms only: optional sign, an integer and/or fractional digit part around
an optional point, and an optional exponent.  (`inf`, `nan` and underscored
forms are not modelled; every use in the source sits inside try/except and
no claim depends on that boundary.) -/
def floatAccepts (s : List Char) : Bool :=
  let b := match s with
    | '+' :: r => r
    | '-' :: r => r
    | r => r
  let m := b.takeWhile (fun c => c ≠ 'e' ∧ c ≠ 'E')
  let r := b.drop m.length
  let mant :=
    let ip := m.takeWhile isDigit09
    let rest := m.drop ip.length
    match rest with
    | [] => !ip.isEmpty
    | '.' :: fp => fp.all isDigit09 && (!ip.isEmpty || !fp.isEmpty)
    | _ => false
  match r with
  | [] => mant
  | _ :: ex =>
    let eb := match ex with
      | '+' :: t => t
      | '-' :: t => t
      | t => t
    mant && !eb.isEmpty && eb.all isDigit09

/-- Python `float(st)`: the accepted literal, or `none` (ValueError). -/
def pyFloat? (s : List Char) : Option (List Char) :=
  if floatAccepts s then some s else none

/-- Leap-year rule of the proleptic Gregorian calendar used by
`datetime.date`. -/
def isLeapYear (y : Nat) : Bool := y % 4 = 0 && (y % 100 ≠ 0 || y % 400 = 0)

/-- Days in a month as accepted by the `datetime.date` constructor. -/
def daysInMonth (y m : Nat) : Nat :=
  if m = 2 then (if isLeapYear y then 29 else 28)
  else if m = 4 ∨ m = 6 ∨ m = 9 ∨ m = 11 then 30
  else 31

/-- The `datetime.date(y, m, d)` constructor succeeds exactly when
1 ≤ y ≤ 9999, 1 ≤ m ≤ 12 and 1 ≤ d ≤ days in that month. -/
def dateOk (y m d : Nat) : Bool :=
  1 ≤ y && y ≤ 9999 && 1 ≤ m && m ≤ 12 && 1 ≤ d && d ≤ daysInMonth y m

/-- Zero-padded decimal rendering of width `w`, as used by
`date.isoformat()`. -/
def padNat (w n : Nat) : List Char :=
  let ds := Nat.toDigits 10 n
  List.replicate (w - ds.length) '0' ++ ds

/-- `date(y, m, d).isoformat()`: the text `YYYY-MM-DD`. -/
def isoDate (y m d : Nat) : List Char :=
  padNat 4 y ++ ('-' :: padNat 2 m) ++ ('-' :: padNat 2 d)

/-- The guarded body of the date branch: `int` the slices `st[0:4]`,
`st[4:6]`, `st[6:8]` and construct `datetime.date`; `none` is the
ValueError that the source catches.  (The slices of an `isdigit` string
carry no sign, so the unsigned digit-run parser is exactly `int()` here;
superscript digits pass `isdigit` but make `int()` raise, hence `none`.) -/
def strictDate? (st : List Char) : Option (Nat × Nat × Nat) :=
  match decDigits? (st.take 4), decDigits? ((st.drop 4).take 2),
      decDigits? ((st.drop 6).take 2) with
  | some y, some m, some d => if dateOk y m d then some (y, m, d) else none
  | _, _, _ => none

/-- Python `s[:1].upper()` for Latin-1 text: the first character (if any)
under the Unicode uppercase mapping restricted to Latin-1 inputs — ASCII
letters and the Latin-1 letters 224-254 (except 247, the division sign)
map down by 32, sharp s (223) maps to `SS`, micro (181) to code point 924,
y-diaeresis (255) to code point 376. -/
def pyUpperFirst (s : List Char) : List Char :=
  match s with
  | [] => []
  | c :: _ =>
    let n := c.toNat
    if 97 ≤ n ∧ n ≤ 122 then [Char.ofNat (n - 32)]
    else if n = 223 then S "SS"
    else if n = 181 then [Char.ofNat 924]
    else if n = 255 then [Char.ofNat 376]
    else if 224 ≤ n ∧ n ≤ 254 ∧ n ≠ 247 then [Char.ofNat (n - 32)]
    else [c]

/-- Embedding of `_parse_dbf_value` (v2_2 lines 181-211).  The bytes are
decoded as Latin-1 (total, so `errors="replace"` never fires); each
`try/except` of the source appears as a `match` on the fallible operation
with the except branch as the `none` case.  The result lives in `Except`
so that an uncaught exception would be visible as an `error`. -/
def parseDbfValue (raw : List Nat) (ftype : Char) (dec : Nat) :
    Except String Value :=
  let s := latin1 raw
  if ftype = 'C' then .ok (.str (pyRStrip s))
  else if ftype = 'N' ∨ ftype = 'F' then
    let st := pyStrip s
    if st = [] then .ok (.str [])
    else if st.contains '.' = true ∨ 0 < dec then
      match pyFloat? st with
      | some f => .ok (.float f)
      | none => .ok (.str st)
    else
      match pyInt? st with
      | some n => .ok (.int n)
      | none => .ok (.str st)
  else if ftype = 'L' then
    let u := pyUpperFirst s
    if u = S "Y" ∨ u = S "T" then .ok (.bool true)
    else if u = S "N" ∨ u = S "F" then .ok (.bool false)
    else .ok (.str [])
  else if ftype = 'D' then
    let st := pyStrip s
    if st.length = 8 ∧ st.all isPyDigit = true then
      match strictDate? st with
      | some (y, m, d) => .ok (.str (isoDate y m d))
      | none => .ok (.str st)
    else .ok (.str [])
  else .ok (.str (pyStrip s))

/-- Branch reduction of `_parse_dbf_value` for the Date type code. -/
theorem parseDbfValue_D (raw : List Nat) (dec : Nat) :
    parseDbfValue raw 'D' dec =
      (if (pyStrip (latin1 raw)).length = 8 ∧
          (pyStrip (latin1 raw)).all isPyDigit = true then
        match strictDate? (pyStrip (latin1 raw)) with
        | some (y, m, d) => .ok (.str (isoDate y m d))
        | none => .ok (.str (pyStrip (latin1 raw)))
      else .ok (.str [])) := rfl

/-- C5, counterexample: decoding the Date field content `00000000` does not
yield the empty value — the strict calendar parse fails (year 0) and the
except branch returns the raw trimmed string `00000000`. -/
theorem dateDecode_claim5_counterexample :
    parseDbfValue (B "00000000") 'D' 0 = .ok (.str (S "00000000")) ∧
      S "00000000" ≠ ([] : List Char) := by
  exact ⟨by decide, by decide⟩

/-- C5, amended: decoding `19991231` yields `1999-12-31`; content whose
trimmed text is not exactly 8 digit characters yields the empty value;
8-digit content whose strict calendar parse fails (such as `00000000`)
yields the raw trimmed string; the decoder never raises (see C6). -/
theorem dateDecode_amended :
    parseDbfValue (B "19991231") 'D' 0 = .ok (.str (S "1999-12-31")) ∧
    parseDbfValue (B "00000000") 'D' 0 = .ok (.str (S "00000000")) ∧
    (∀ (raw : List Nat) (dec : Nat),
      ¬((pyStrip (latin1 raw)).length = 8 ∧
          (pyStrip (latin1 raw)).all isPyDigit = true) →
        parseDbfValue raw 'D' dec = .ok (.str [])) ∧
    (∀ (raw : List Nat) (dec : Nat),
      (pyStrip (latin1 raw)).length = 8 →
      (pyStrip (latin1 raw)).all isPyDigit = true →
      strictDate? (pyStrip (latin1 raw)) = none →
        parseDbfValue raw 'D' dec = .ok (.str (pyStrip (latin1 raw)))) := by
  refine ⟨by decide, by decide, ?_, ?_⟩
  · intro raw dec h
    rw [parseDbfValue_D, if_neg h]
  · intro raw dec h8 hdig hnone
    rw [parseDbfValue_D, if_pos ⟨h8, hdig⟩, hnone]

/-- Witness for the amended C5 at concrete inputs: a non-digit Date field
decodes to the empty value, and an 8-digit field with month 99 decodes to
the raw trimmed string. -/
theorem dateDecode_amended_witness :
    parseDbfValue (B "ABC") 'D' 0 = .ok (.str []) ∧
      parseDbfValue (B "99999999") 'D' 0 = .ok (.str (S "99999999")) := by
  constructor
  · exact dateDecode_amended.2.2.1 (B "ABC") 0 (by decide)
  · have h := dateDecode_amended.2.2.2 (B "99999999") 0 (by decide) (by decide)
      (by decide)
    exact h.trans (congrArg Except.ok (congrArg Value.str (by decide)))

/-- The descriptor loop fails on every byte area in which no complete
32-byte block starts with the terminator byte 0x0D: the loop reads past
every block and hits the short-read error. -/
theorem parseFields_noTerminator (rest : List Nat)
    (h : ∀ i, 32 * i + 32 ≤ rest.length → rest.getD (32 * i) 0 ≠ 13) :
    parseFields rest = .error "Unexpected EOF reading DBF field descriptors." := by
  by_cases h32 : rest.length < 32
  · rw [parseFields, dif_pos h32]
  · have h0 : (rest.take 32).getD 0 0 ≠ 13 := by
      rw [getD_take _ _ _ (by omega)]
      simpa using h 0 (by omega)
    have hrec := parseFields_noTerminator (rest.drop 32) (by
      intro i hi
      rw [getD_drop]
      have hlen : (rest.drop 32).length = rest.length - 32 := by
        simp [List.length_drop]
      rw [hlen] at hi
      have h2 := h (i + 1) (by omega)
      have h3 : 32 * (i + 1) = 32 + 32 * i := by ring
      rw [h3] at h2
      exact h2)
    rw [parseFields, dif_neg h32, if_neg h0, hrec]
termination_by rest.length
decreasing_by simp only [List.length_drop]; omega

/-- C6: decoding a single field value never raises — for all field bytes,
type code and decimal count the embedded `_parse_dbf_value` returns a
value, every fallible builtin being caught — whereas a file shorter than
32 bytes, or one whose field-descriptor area ends before a block starting
with the 0x0D terminator, makes the header parser fail for the whole
file. -/
theorem decode_total_and_header_fatal :
    (∀ (raw : List Nat) (ftype : Char) (dec : Nat),
      ∃ v, parseDbfValue raw ftype dec = .ok v) ∧
    (∀ data : List Nat, data.length < 32 →
      parseDbfHeader data = .error "File too short to be a DBF.") ∧
    (∀ data : List Nat, 32 ≤ data.length →
      (∀ i, 32 * i + 32 ≤ data.length - 32 → data.getD (32 + 32 * i) 0 ≠ 13) →
      parseDbfHeader data =
        .error "Unexpected EOF reading DBF field descriptors.") := by
  refine ⟨?_, ?_, ?_⟩
  · intro raw ftype dec
    simp only [parseDbfValue]
    repeat' split
    all_goals exact ⟨_, rfl⟩
  · intro data h
    have hc : (data.take 32).length < 32 := by
      simp only [List.length_take]; omega
    simp only [parseDbfHeader]
    rw [if_pos hc]
  · intro data hlen hterm
    have hc : ¬ (data.take 32).length < 32 := by
      simp only [List.length_take]; omega
    have hfields := parseFields_noTerminator (data.drop 32) (by
      intro i hi
      rw [getD_drop]
      have hdl : (data.drop 32).length = data.length - 32 := by
        simp [List.length_drop]
      rw [hdl] at hi
      exact hterm i hi)
    simp only [parseDbfHeader]
    rw [if_neg hc, hfields]

/-- Witness for C6 at concrete inputs: a character field decodes to some
value, the empty file is a fatal header error, and a 32-byte file with no
descriptor terminator is a fatal descriptor error. -/
theorem decode_total_and_header_fatal_witness :
    (∃ v, parseDbfValue (B " hi ") 'C' 0 = .ok v) ∧
      parseDbfHeader [] = .error "File too short to be a DBF." ∧
      parseDbfHeader (List.replicate 32 0) =
        .error "Unexpected EOF reading DBF field descriptors." := by
  refine ⟨decode_total_and_header_fatal.1 (B " hi ") 'C' 0,
    decode_total_and_header_fatal.2.1 [] (by decide),
    decode_total_and_header_fatal.2.2 (List.replicate 32 0) (by decide) ?_⟩
  intro i hi
  simp at hi

/-! ## TableDecoder: record decoding
(v2_2 `dbf_to_csv`, lines 214-240; v2_4 `dbf_to_csv`, lines 113-128) -/

/-- Embedding of `rec[0:1] == b"*"` (deleted-record flag 0x2A). -/
def isDeleted (r : List Nat) : Bool := r.take 1 = [42]

/-- Embedding of the per-record field walk of v2_2 (lines 233-238): the
running offset starts at 1 after the deletion flag; each descriptor slices
`rec[offset:offset+flen]` and decodes it with `_parse_dbf_value`. -/
def decodeFieldsFrom (off : Nat) (fields : List FieldDescriptor)
    (r : List Nat) : List (List Char × Except String Value) :=
  match fields with
  | [] => []
  | f :: fs =>
    (f.name, parseDbfValue ((r.drop off).take f.flen) f.ftype f.fdec) ::
      decodeFieldsFrom (off + f.flen) fs r

/-- One decoded row of v2_2, assignments in descriptor order. -/
def decodeRecord (fields : List FieldDescriptor) (r : List Nat) :
    List (List Char × Except String Value) :=
  decodeFieldsFrom 1 fields r

/-- Embedding of the record loop of v2_2 `dbf_to_csv` (lines 226-240):
`num_records` iterations of `rec = f.read(record_len)`; break on an empty
or short read; skip records whose first byte is `*`; otherwise decode and
emit. -/
def readRecords (fields : List FieldDescriptor) (rlen : Nat) :
    Nat → List Nat → List (List (List Char × Except String Value))
  | 0, _ => []
  | n + 1, bytes =>
    let r := bytes.take rlen
    if r = [] ∨ r.length < rlen then []
    else if isDeleted r then readRecords fields rlen n (bytes.drop rlen)
    else decodeRecord fields r :: readRecords fields rlen n (bytes.drop rlen)

/-- Embedding of the per-record field walk of v2_4 (lines 124-127): each
value is the Latin-1-decoded, stripped slice. -/
def decodeFields24From (off : Nat) (fields : List FieldDescriptor)
    (r : List Nat) : List (List Char × List Char) :=
  match fields with
  | [] => []
  | f :: fs =>
    (f.name, pyStrip (latin1 ((r.drop off).take f.flen))) ::
      decodeFields24From (off + f.flen) fs r

/-- One decoded row of v2_4. -/
def decodeRecord24 (fields : List FieldDescriptor) (r : List Nat) :
    List (List Char × List Char) :=
  decodeFields24From 1 fields r

/-- Embedding of the record loop of v2_4 `dbf_to_csv` (lines 120-128):
`nrec` iterations with NO short-read check — a record is skipped only when
its first byte is `*`, everything else (including an empty read at end of
file) is decoded and emitted. -/
def readRecords24 (fields : List FieldDescriptor) (rlen : Nat) :
    Nat → List Nat → List (List (List Char × List Char))
  | 0, _ => []
  | n + 1, bytes =>
    let r := bytes.take rlen
    if isDeleted r then readRecords24 fields rlen n (bytes.drop rlen)
    else decodeRecord24 fields r :: readRecords24 fields rlen n (bytes.drop rlen)

/-- Helper: length of the filtered complement. -/
theorem length_filter_not_eq_sub {α : Type} (p : α → Bool) (l : List α) :
    (l.filter (fun a => !(p a))).length = l.length - (l.filter p).length := by
  induction l with
  | nil => rfl
  | cons a t ih =>
    have hle := List.length_filter_le p t
    by_cases h : p a <;> simp [List.filter_cons, h, ih] <;> omega

/-- C2 for the v2_2 loop: on a record area made of complete records the
loop returns the non-deleted records decoded, in order. -/
theorem readRecords_wellFormed (fields : List FieldDescriptor) (rlen : Nat)
    (recs : List (List Nat)) (hlen : ∀ r ∈ recs, r.length = rlen)
    (hpos : 0 < rlen) :
    readRecords fields rlen recs.length recs.flatten =
      (recs.filter (fun r => !(isDeleted r))).map (decodeRecord fields) := by
  induction recs with
  | nil => rfl
  | cons r rs ih =>
    have hr : r.length = rlen := hlen r (by simp)
    have htake : (r ++ rs.flatten).take rlen = r := List.take_left' hr
    have hdrop : (r ++ rs.flatten).drop rlen = rs.flatten := List.drop_left' hr
    have hnotstop : ¬(r = [] ∨ r.length < rlen) := by
      push_neg
      constructor
      · intro hnil; rw [hnil] at hr; simp at hr; omega
      · omega
    rw [List.length_cons, List.flatten_cons, readRecords, htake, hdrop,
      if_neg hnotstop]
    have ih2 := ih (fun x hx => hlen x (by simp [hx]))
    by_cases hdel : isDeleted r
    · rw [if_pos hdel, ih2, List.filter_cons]
      simp [hdel]
    · rw [if_neg hdel, ih2, List.filter_cons]
      simp [hdel]

/-- C2 for the v2_4 loop: identical row selection on complete records. -/
theorem readRecords24_wellFormed (fields : List FieldDescriptor) (rlen : Nat)
    (recs : List (List Nat)) (hlen : ∀ r ∈ recs, r.length = rlen) :
    readRecords24 fields rlen recs.length recs.flatten =
      (recs.filter (fun r => !(isDeleted r))).map (decodeRecord24 fields) := by
  induction recs with
  | nil => rfl
  | cons r rs ih =>
    have hr : r.length = rlen := hlen r (by simp)
    have htake : (r ++ rs.flatten).take rlen = r := List.take_left' hr
    have hdrop : (r ++ rs.flatten).drop rlen = rs.flatten := List.drop_left' hr
    rw [List.length_cons, List.flatten_cons, readRecords24, htake, hdrop]
    have ih2 := ih (fun x hx => hlen x (by simp [hx]))
    by_cases hdel : isDeleted r
    · rw [if_pos hdel, ih2, List.filter_cons]
      simp [hdel]
    · rw [if_neg hdel, ih2, List.filter_cons]
      simp [hdel]

/-- C2: for every table file whose record area consists of N complete
records (each of the declared record length, with the header record count
equal to N), of which D have first byte 0x2A, both record loops emit
exactly N − D decoded rows — the non-deleted records decoded in their
original order; a record flagged deleted is never decoded or emitted. -/
theorem decodeRecords_skips_deleted (fields : List FieldDescriptor)
    (rlen : Nat) (recs : List (List Nat))
    (hlen : ∀ r ∈ recs, r.length = rlen) (hpos : 0 < rlen) :
    readRecords fields rlen recs.length recs.flatten =
      (recs.filter (fun r => !(isDeleted r))).map (decodeRecord fields) ∧
    (readRecords fields rlen recs.length recs.flatten).length =
      recs.length - (recs.filter isDeleted).length ∧
    readRecords24 fields rlen recs.length recs.flatten =
      (recs.filter (fun r => !(isDeleted r))).map (decodeRecord24 fields) := by
  refine ⟨readRecords_wellFormed fields rlen recs hlen hpos, ?_,
    readRecords24_wellFormed fields rlen recs hlen⟩
  rw [readRecords_wellFormed fields rlen recs hlen hpos, List.length_map,
    length_filter_not_eq_sub]

/-- Witness for C2 on a concrete three-record area whose middle record is
deleted: exactly two rows come out, in order. -/
theorem decodeRecords_skips_deleted_witness :
    readRecords [{ name := S "A", ftype := 'C', flen := 2, fdec := 0 }] 3
        ([[32, 97, 98], [42, 99, 100], [32, 101, 102]] : List (List Nat)).length
        ([[32, 97, 98], [42, 99, 100], [32, 101, 102]] : List (List Nat)).flatten =
      [[(S "A", .ok (.str (S "ab")))], [(S "A", .ok (.str (S "ef")))]] := by
  have h := (decodeRecords_skips_deleted
    [{ name := S "A", ftype := 'C', flen := 2, fdec := 0 }] 3
    [[32, 97, 98], [42, 99, 100], [32, 101, 102]] (by decide) (by decide)).1
  exact h.trans (by decide)

/-- C7, counterexample: the v2_4 record loop has no short-read check, so on
an empty record area with header record count 1 it still emits one row
(decoded from the empty read) — more rows than the zero complete records
present, contradicting the claim for that cited decoder. -/
theorem recordLoop_claim7_counterexample :
    readRecords24 [{ name := S "A", ftype := 'C', flen := 2, fdec := 0 }] 3 1
        ([] : List Nat) = [[(S "A", ([] : List Char))]] ∧
      ([] : List Nat).length / 3 = 0 := by
  exact ⟨by decide, by decide⟩

/-- C7, amended, for the v2_2 loop: a read that returns fewer bytes than
the record length stops the sequence with no row emitted, and consequently
the loop emits at most as many rows as complete records fit in the record
area, whatever the header record count says.  (The v2_4 variant lacks the
short-read check; see the counterexample.) -/
theorem readRecords_stops_on_short_read :
    (∀ (fields : List FieldDescriptor) (rlen n : Nat) (bytes : List Nat),
      bytes.length < rlen → readRecords fields rlen (n + 1) bytes = []) ∧
    (∀ (fields : List FieldDescriptor) (rlen n : Nat) (bytes : List Nat),
      (readRecords fields rlen n bytes).length ≤ bytes.length / rlen) := by
  constructor
  · intro fields rlen n bytes h
    have hc : bytes.take rlen = [] ∨ (bytes.take rlen).length < rlen :=
      Or.inr (by simp only [List.length_take]; omega)
    rw [readRecords, if_pos hc]
  · intro fields rlen n
    induction n with
    | zero => intro bytes; simp [readRecords]
    | succ n ih =>
      intro bytes
      rw [readRecords]
      by_cases hstop : bytes.take rlen = [] ∨ (bytes.take rlen).length < rlen
      · rw [if_pos hstop]; simp
      · rw [if_neg hstop]
        push_neg at hstop
        obtain ⟨hne, hgel⟩ := hstop
        have hrpos : 0 < rlen := by
          rcases Nat.eq_zero_or_pos rlen with h0 | h0
          · rw [h0] at hne; simp at hne
          · exact h0
        have hblen : rlen ≤ bytes.length := by
          simp only [List.length_take] at hgel
          omega
        have hdiv : bytes.length / rlen = (bytes.length - rlen) / rlen + 1 :=
          Nat.div_eq_sub_div hrpos hblen
        have hdroplen : (bytes.drop rlen).length = bytes.length - rlen := by
          simp
        have hrec := ih (bytes.drop rlen)
        rw [hdroplen] at hrec
        by_cases hdel : isDeleted (bytes.take rlen)
        · rw [if_pos hdel]
          omega
        · rw [if_neg hdel]
          simp only [List.length_cons]
          omega

/-- Witness for the amended C7: a 3-byte area with record length 5 stops
at once, and a 4-byte area with record length 2 yields at most 2 rows. -/
theorem readRecords_stops_on_short_read_witness :
    readRecords [] 5 2 [1, 2, 3] = [] ∧
      (readRecords [] 2 7 [32, 97, 32, 98]).length ≤ 2 :=
  ⟨readRecords_stops_on_short_read.1 [] 5 1 [1, 2, 3] (by decide),
    readRecords_stops_on_short_read.2 [] 2 7 [32, 97, 32, 98]⟩

/-! ## RowProjector
(v2_2 `clean_and_filter_csv`, lines 253-287; v2_4 lines 131-154) -/

/-- Python `str.lower` restricted to Latin-1 inputs: ASCII uppercase
letters and the Latin-1 uppercase letters 192-222 (except 215, the
multiplication sign) map down by 32; everything else is unchanged. -/
def pyLower (s : List Char) : List Char :=
  s.map (fun c =>
    let n := c.toNat
    if 65 ≤ n ∧ n ≤ 90 then Char.ofNat (n + 32)
    else if 192 ≤ n ∧ n ≤ 222 ∧ n ≠ 215 then Char.ofNat (n + 32)
    else c)

/-- The fixed canonical field list `RELEVANT_FIELDS` (v2_2 line 99). -/
def RELEVANT_FIELDS : List (List Char) :=
  [S "data_date", S "data_srce", S "pid", S "name", S "dec_lat", S "dec_lon",
    S "state", S "county", S "marker", S "setting", S "last_recv",
    S "last_cond", S "last_recby", S "ortho_ht"]

/-- Embedding of `header_map = {h.lower(): h for h in reader.fieldnames}`
(v2_2 line 262) looked up at key `k`: the dict keeps, for each lowercase
key, the LAST header whose lowercase form equals it. -/
def headerMap (hs : List (List Char)) (k : List Char) : Option (List Char) :=
  hs.reverse.find? (fun h => pyLower h = k)

/-- Embedding of one step of the selection loop (v2_2 lines 266-271):
`actual = header_map.get(want.lower())`, kept when truthy — the Python
truthiness test `if actual:` also drops an empty-string header. -/
def selectField (hs : List (List Char)) (w : List Char) : Option (List Char) :=
  match headerMap hs (pyLower w) with
  | some a => if a = [] then none else some a
  | none => none

/-- Embedding of the selection loop (v2_2 lines 264-271): the kept
original-cased headers, in canonical order. -/
def outHeaders (hs : List (List Char)) : List (List Char) :=
  RELEVANT_FIELDS.filterMap (selectField hs)

/-- Embedding of `row.get(h, "")` for a row modelled as an association
list keyed by csv header. -/
def rowGet (row : List (List Char × List Char)) (h : List Char) : List Char :=
  match row.find? (fun p => p.1 = h) with
  | some p => p.2
  | none => []

/-- Embedding of the per-row projection and cleaning (v2_2 line 286):
`{h: _clean_value(row.get(h, "")) for h in out_headers}` in `out_headers`
order. -/
def projectRow (outHs : List (List Char))
    (row : List (List Char × List Char)) : List (List Char × List Char) :=
  outHs.map (fun h => (h, cleanValue (rowGet row h)))

/-- Embedding of `clean_and_filter_csv` (v2_2 lines 253-287) on parsed CSV
input — the header list (`none` when the reader reports no header) and the
data rows.  The two `raise RuntimeError` sites appear as errors; on
success the result is the output header list and the projected rows, one
per input row, in order. -/
def cleanAndFilterCsv (hs? : Option (List (List Char)))
    (rows : List (List (List Char × List Char))) :
    Except String (List (List Char) × List (List (List Char × List Char))) :=
  match hs? with
  | none => .error "No headers found"
  | some hs =>
    let outHs := outHeaders hs
    if outHs = [] then
      .error "None of the configured RELEVANT_FIELDS were found"
    else .ok (outHs, rows.map (projectRow outHs))

/-- Helper: an empty header map lookup means no case-insensitive match. -/
theorem headerMap_none_iff (hs : List (List Char)) (k : List Char) :
    headerMap hs k = none ↔ ∀ h ∈ hs, ¬ pyLower h = k := by
  simp [headerMap, List.find?_eq_none, List.mem_reverse]

/-- Helper: a successful header map lookup returns an original-cased
source header whose lowercase form is the key. -/
theorem headerMap_some (hs : List (List Char)) (k a : List Char)
    (h : headerMap hs k = some a) : a ∈ hs ∧ pyLower a = k := by
  unfold headerMap at h
  have h1 := List.find?_some h
  have h2 := List.mem_of_find?_eq_some h
  exact ⟨List.mem_reverse.mp h2, by simpa using h1⟩

/-- Helper: `pyLower` sends nonempty texts to nonempty texts. -/
theorem pyLower_eq_nil_iff (s : List Char) : pyLower s = [] ↔ s = [] := by
  simp [pyLower]

/-- The selection loop, over any wanted list of nonempty names, equals the
case-insensitively matched wanted names in wanted order, each replaced by
its original-cased source header. -/
theorem selection_eq (ws hs : List (List Char))
    (hw : ∀ w ∈ ws, ¬ w = []) :
    ws.filterMap (selectField hs) =
      (ws.filter (fun w => hs.any (fun h => pyLower h = pyLower w))).map
        (fun w => (headerMap hs (pyLower w)).getD []) := by
  induction ws with
  | nil => rfl
  | cons w ws ih =>
    rw [List.filter_cons]
    have hwn : ¬ w = [] := hw w (by simp)
    rcases hm : headerMap hs (pyLower w) with _ | a
    · have hnone : selectField hs w = none := by rw [selectField, hm]
      have hany : hs.any (fun h => pyLower h = pyLower w) = false := by
        simp only [List.any_eq_false, decide_eq_true_eq]
        exact (headerMap_none_iff hs (pyLower w)).mp hm
      rw [List.filterMap_cons_none hnone, hany]
      simp only [Bool.false_eq_true, if_false]
      exact ih (fun x hx => hw x (by simp [hx]))
    · obtain ⟨hmem, hlow⟩ := headerMap_some hs (pyLower w) a hm
      have hane : ¬ a = [] := by
        intro hnil
        rw [hnil] at hlow
        exact hwn ((pyLower_eq_nil_iff w).mp hlow.symm)
      have hsome : selectField hs w = some a := by
        rw [selectField, hm]
        exact if_neg hane
      have hany : hs.any (fun h => pyLower h = pyLower w) = true := by
        simp only [List.any_eq_true, decide_eq_true_eq]
        exact ⟨a, hmem, hlow⟩
      rw [List.filterMap_cons_some hsome, hany]
      simp only [if_true, List.map_cons, hm, Option.getD_some]
      rw [ih (fun x hx => hw x (by simp [hx]))]

/-- C4, counterexample: with source header `Dec_Lat` a case-insensitive
match for the canonical field `dec_lat` exists, yet the output column is
named `Dec_Lat` (the source's original casing) — the canonical name
`dec_lat` appears nowhere in the output, so the claimed
"included under the canonical name exactly when a match exists" fails. -/
theorem projector_claim4_counterexample :
    outHeaders [S "Dec_Lat"] = [S "Dec_Lat"] ∧
      pyLower (S "Dec_Lat") = pyLower (S "dec_lat") ∧
      ¬ S "dec_lat" ∈ outHeaders [S "Dec_Lat"] := by
  exact ⟨by decide, by decide, by decide⟩

/-- C4, amended: the output column list is exactly the canonical fields
with a case-insensitive source match, in canonical order, each kept under
the source's original-cased name; a canonical field appears (up to case)
in the output exactly when a source match exists, and is omitted entirely
otherwise; every projected row carries exactly these columns in this
order. -/
theorem projector_selection (hs : List (List Char)) :
    outHeaders hs =
      (RELEVANT_FIELDS.filter
          (fun w => hs.any (fun h => pyLower h = pyLower w))).map
        (fun w => (headerMap hs (pyLower w)).getD []) ∧
    (∀ w ∈ RELEVANT_FIELDS,
      (∃ h ∈ hs, pyLower h = pyLower w) ↔
        ∃ h ∈ outHeaders hs, pyLower h = pyLower w) ∧
    (∀ row, (projectRow (outHeaders hs) row).map Prod.fst = outHeaders hs) := by
  have hsel : outHeaders hs =
      (RELEVANT_FIELDS.filter
          (fun w => hs.any (fun h => pyLower h = pyLower w))).map
        (fun w => (headerMap hs (pyLower w)).getD []) :=
    selection_eq RELEVANT_FIELDS hs (by decide)
  refine ⟨hsel, ?_, ?_⟩
  · intro w hwmem
    constructor
    · rintro ⟨h, hmem, heq⟩
      have hany : hs.any (fun x => pyLower x = pyLower w) = true := by
        simp only [List.any_eq_true, decide_eq_true_eq]
        exact ⟨h, hmem, heq⟩
      have hwin : w ∈ RELEVANT_FIELDS.filter
          (fun x => hs.any (fun h => pyLower h = pyLower x)) :=
        List.mem_filter.mpr ⟨hwmem, hany⟩
      have hsome : ∃ a, headerMap hs (pyLower w) = some a := by
        rcases hm : headerMap hs (pyLower w) with _ | a
        · exact absurd heq ((headerMap_none_iff hs (pyLower w)).mp hm h hmem)
        · exact ⟨a, rfl⟩
      obtain ⟨a, hm⟩ := hsome
      refine ⟨a, ?_, (headerMap_some hs (pyLower w) a hm).2⟩
      rw [hsel]
      exact List.mem_map.mpr ⟨w, hwin, by rw [hm]; rfl⟩
    · rintro ⟨h, hmem, heq⟩
      rw [hsel] at hmem
      obtain ⟨w', hw', hmap⟩ := List.mem_map.mp hmem
      rcases hm : headerMap hs (pyLower w') with _ | a
      · have hany := (List.mem_filter.mp hw').2
        simp only [List.any_eq_true, decide_eq_true_eq] at hany
        obtain ⟨x, hxmem, hxeq⟩ := hany
        exact absurd hxeq ((headerMap_none_iff hs (pyLower w')).mp hm x hxmem)
      · rw [hm] at hmap
        obtain ⟨hamem, _⟩ := headerMap_some hs (pyLower w') a hm
        simp only [Option.getD_some] at hmap
        exact ⟨h, by rw [← hmap]; exact hamem, heq⟩
  · intro row
    unfold projectRow
    rw [List.map_map]
    have hid : ∀ l : List (List Char),
        List.map (Prod.fst ∘ fun h => (h, cleanValue (rowGet row h))) l = l := by
      intro l
      induction l with
      | nil => rfl
      | cons x t ih => simp only [List.map_cons, Function.comp_apply, ih]
    exact hid _

/-- Witness for the amended C4: with the single mixed-case source header
`Dec_Lat` the output column list is `[Dec_Lat]` and contains a
case-insensitive match for the canonical field `dec_lat`. -/
theorem projector_selection_witness :
    outHeaders [S "Dec_Lat"] = [S "Dec_Lat"] ∧
      ∃ h ∈ outHeaders [S "Dec_Lat"], pyLower h = pyLower (S "dec_lat") := by
  constructor
  · exact (projector_selection [S "Dec_Lat"]).1.trans (by decide)
  · exact ((projector_selection [S "Dec_Lat"]).2.1 (S "dec_lat")
      (by decide)).mp ⟨S "Dec_Lat", by decide, by decide⟩

/-- C10, counterexample: when no canonical field matches the source
headers, v2_2 raises instead of emitting one output row per input row —
here one input row yields an error and no rows at all. -/
theorem projector_claim10_counterexample :
    cleanAndFilterCsv (some [S "foo"]) [[(S "foo", S "x")]] =
      .error "None of the configured RELEVANT_FIELDS were found" := by
  decide

/-- C10, amended: whenever at least one canonical field matches the source
headers, the projector emits exactly one output row per input row, in
input order (row filtering never happens); with no match at all it fails
with an error and emits nothing. -/
theorem projector_keeps_all_rows (hs : List (List Char))
    (rows : List (List (List Char × List Char)))
    (h : ¬ outHeaders hs = []) :
    cleanAndFilterCsv (some hs) rows =
      .ok (outHeaders hs, rows.map (projectRow (outHeaders hs))) ∧
    (rows.map (projectRow (outHeaders hs))).length = rows.length := by
  constructor
  · simp only [cleanAndFilterCsv]
    rw [if_neg h]
  · exact List.length_map rows _

/-- Witness for the amended C10: a two-row input (one of the rows empty)
projects to exactly two rows. -/
theorem projector_keeps_all_rows_witness :
    cleanAndFilterCsv (some [S "PID"]) [[(S "PID", S " 1 ")], []] =
      .ok ([S "PID"], [[(S "PID", S "1")], [(S "PID", S "")]]) := by
  have h := (projector_keeps_all_rows [S "PID"] [[(S "PID", S " 1 ")], []]
    (by decide)).1
  exact h.trans (by decide)

/-! ## Fetcher idempotent skip
(v1_5 `main`/`_try_download`/`_download_zip_validated`, lines 145-229;
v1_8 `main`/`_download_with_curl`, lines 105-176)

The destination file is modelled as `Option (List Nat)` (`none` when no
file exists); a network transfer is a status code and body; the second
component of each step result counts the network requests made. -/

/-- Network response for one URL: HTTP status and body bytes. -/
structure HttpResponse where
  status : Nat
  body : List Nat

/-- Embedding of `_download_zip_validated` (v1_5 lines 145-180): fail on a
status of at least 400, on an empty body, and on a first chunk (modelled
as the first 1024 body bytes) without the zip magic; otherwise the body is
committed by the atomic rename. -/
def downloadZipValidated (resp : HttpResponse) : Option (List Nat) :=
  if 400 ≤ resp.status then none
  else if resp.body = [] then none
  else if ¬ isZipMagic (resp.body.take 1024) then none
  else some resp.body

/-- Embedding of `_try_download` (v1_5 lines 183-204): try the candidate
URLs in order, stopping at the first validated download; the second
component counts the requests made (one per attempted candidate). -/
def tryDownload (oracle : String → HttpResponse) :
    List String → Option (List Nat) × Nat
  | [] => (none, 0)
  | u :: rest =>
    match downloadZipValidated (oracle u) with
    | some body => (some body, 1)
    | none =>
      let p := tryDownload oracle rest
      (p.1, p.2 + 1)

/-- Embedding of `os.path.exists(p) and os.path.getsize(p) > 0`. -/
def destNonEmpty : Option (List Nat) → Bool
  | some b => 0 < b.length
  | none => false

/-- Embedding of `zipfile.is_zipfile(p)` on the destination; the archive
test itself is an abstract predicate on the bytes. -/
def destIsZip (isZip : List Nat → Bool) : Option (List Nat) → Bool
  | some b => isZip b
  | none => false

/-- Embedding of the per-identifier fetch step of v1_5 `main`
(lines 220-227): skip — no request, file untouched — whenever the
destination already holds a non-empty file; otherwise run the candidate
list, committing the first validated body, and raise when every candidate
fails. -/
def fetchStep15 (oracle : String → HttpResponse) (cands : List String)
    (dest : Option (List Nat)) : Except String (Option (List Nat) × Nat) :=
  if destNonEmpty dest then .ok (dest, 0)
  else
    match tryDownload oracle cands with
    | (some body, n) => .ok (some body, n)
    | (none, n) => .error "All URL attempts failed"

/-- Embedding of the per-identifier fetch step of v1_8 `main`
(lines 165-176): skip when the destination holds a non-empty valid
archive; otherwise one curl transfer (`none` models a curl failure, which
raises), committed only when `zipfile.is_zipfile` accepts the bytes
(`_download_with_curl` lines 132-137 raises before the rename
otherwise). -/
def fetchStep18 (isZip : List Nat → Bool) (curlResult : Option (List Nat))
    (dest : Option (List Nat)) : Except String (Option (List Nat) × Nat) :=
  if destNonEmpty dest && destIsZip isZip dest then .ok (dest, 0)
  else
    match curlResult with
    | none => .error "curl failed"
    | some body =>
      if isZip body then .ok (some body, 1)
      else .error "Downloaded file is not a valid ZIP"

/-- Helper: a validated download body is never empty. -/
theorem downloadZipValidated_nonEmpty (resp : HttpResponse)
    (body : List Nat) (h : downloadZipValidated resp = some body) :
    ¬ body = [] := by
  unfold downloadZipValidated at h
  by_cases h1 : 400 ≤ resp.status
  · rw [if_pos h1] at h; exact absurd h (by simp)
  · rw [if_neg h1] at h
    by_cases h2 : resp.body = []
    · rw [if_pos h2] at h; exact absurd h (by simp)
    · rw [if_neg h2] at h
      by_cases h3 : ¬ isZipMagic (resp.body.take 1024)
      · rw [if_pos h3] at h; exact absurd h (by simp)
      · rw [if_neg h3] at h
        rw [← Option.some.inj h]
        exact h2

/-- Helper: a successful candidate sweep returns a non-empty body. -/
theorem tryDownload_nonEmpty (oracle : String → HttpResponse)
    (cands : List String) (body : List Nat) (n : Nat)
    (h : tryDownload oracle cands = (some body, n)) : ¬ body = [] := by
  induction cands generalizing n with
  | nil => simp [tryDownload] at h
  | cons u rest ih =>
    rw [tryDownload] at h
    rcases hd : downloadZipValidated (oracle u) with _ | b
    · rw [hd] at h
      have h1 : (tryDownload oracle rest).1 = some body := by
        have := congrArg Prod.fst h
        simpa using this
      exact ih ((tryDownload oracle rest).2) (by rw [← h1])
    · rw [hd] at h
      have hb : b = body := by
        have := congrArg Prod.fst h
        simpa using this
      rw [← hb]
      exact downloadZipValidated_nonEmpty (oracle u) b hd

/-- C8: fetch is idempotent on an already-successful destination.  For the
v1_5 fetcher, any non-empty prior artifact short-circuits: no network
request, file unchanged; consequently a second call after any successful
call returns the identical file with zero requests.  For the v1_8 fetcher
(whose skip also re-checks the archive test), a second call after any
successful call likewise makes no request and leaves the identical file,
because success only ever commits bytes accepted by the archive test. -/
theorem fetch_idempotent :
    (∀ (oracle : String → HttpResponse) (cands : List String) (b : List Nat),
      ¬ b = [] → fetchStep15 oracle cands (some b) = .ok (some b, 0)) ∧
    (∀ (oracle oracle2 : String → HttpResponse)
        (cands cands2 : List String) (dest : Option (List Nat))
        (b : List Nat) (n : Nat),
      fetchStep15 oracle cands dest = .ok (some b, n) →
      fetchStep15 oracle2 cands2 (some b) = .ok (some b, 0)) ∧
    (∀ (isZip : List Nat → Bool) (curlResult curlResult2 : Option (List Nat))
        (dest : Option (List Nat)) (b : List Nat) (n : Nat),
      isZip [] = false →
      fetchStep18 isZip curlResult dest = .ok (some b, n) →
      fetchStep18 isZip curlResult2 (some b) = .ok (some b, 0)) := by
  have skip15 : ∀ (oracle : String → HttpResponse) (cands : List String)
      (b : List Nat), ¬ b = [] →
      fetchStep15 oracle cands (some b) = .ok (some b, 0) := by
    intro oracle cands b hb
    have hne : destNonEmpty (some b) = true := by
      simp only [destNonEmpty]
      simp only [decide_eq_true_eq]
      exact List.length_pos.mpr hb
    rw [fetchStep15, if_pos hne]
  refine ⟨skip15, ?_, ?_⟩
  · intro oracle oracle2 cands cands2 dest b n h
    rw [fetchStep15] at h
    by_cases hne : destNonEmpty dest = true
    · rw [if_pos hne] at h
      have hd : dest = some b := by
        have := Except.ok.inj h
        exact congrArg Prod.fst this
      rw [hd] at hne
      apply skip15
      intro hnil
      rw [hnil] at hne
      simp [destNonEmpty] at hne
    · rw [if_neg hne] at h
      rcases ht : tryDownload oracle cands with ⟨r, m⟩
      rw [ht] at h
      rcases r with _ | body
      · exact absurd h (by simp)
      · have hb : body = b := by
          have := Except.ok.inj h
          have := congrArg Prod.fst this
          simpa using this
        apply skip15
        rw [← hb]
        exact tryDownload_nonEmpty oracle cands body m ht
  · intro isZip curlResult curlResult2 dest b n hz h
    have hstep : ∀ curl2 : Option (List Nat), isZip b = true → ¬ b = [] →
        fetchStep18 isZip curl2 (some b) = .ok (some b, 0) := by
      intro curl2 hzb hb
      have hne : (destNonEmpty (some b) && destIsZip isZip (some b)) = true := by
        simp only [destNonEmpty, destIsZip, Bool.and_eq_true]
        exact ⟨by simpa [decide_eq_true_eq] using List.length_pos.mpr hb, hzb⟩
      rw [fetchStep18.eq_def, if_pos hne]
    rw [fetchStep18.eq_def] at h
    by_cases hne : (destNonEmpty dest && destIsZip isZip dest) = true
    · rw [if_pos hne] at h
      have hd : dest = some b := congrArg Prod.fst (Except.ok.inj h)
      rw [hd] at hne
      simp only [destNonEmpty, destIsZip, Bool.and_eq_true] at hne
      apply hstep curlResult2 hne.2
      intro hnil
      rw [hnil] at hne
      simp at hne
    · rw [if_neg hne] at h
      rcases curlResult with _ | body
      · exact absurd h (by simp)
      · have h2 : (if isZip body = true then Except.ok (some body, 1)
            else (Except.error "Downloaded file is not a valid ZIP" :
              Except String (Option (List Nat) × Nat))) = .ok (some b, n) := h
        by_cases hzb : isZip body = true
        · rw [if_pos hzb] at h2
          have hb : body = b := by
            have := congrArg Prod.fst (Except.ok.inj h2)
            simpa using this
          rw [hb] at hzb
          apply hstep curlResult2 hzb
          intro hnil
          rw [hnil, hz] at hzb
          exact Bool.false_ne_true hzb
        · rw [if_neg hzb] at h2
          exact absurd h2 (by simp)

/-- Witness for C8: a non-empty prior artifact makes the v1_5 step return
it unchanged with zero requests, and after a successful v1_8 fetch of a
valid archive the next step returns it unchanged with zero requests. -/
theorem fetch_idempotent_witness :
    fetchStep15 (fun _ => { status := 200, body := [] }) [] (some (B "PK")) =
      .ok (some (B "PK"), 0) ∧
    fetchStep18 isZipMagic (some []) (some (B "PK3")) =
      .ok (some (B "PK3"), 0) := by
  constructor
  · exact fetch_idempotent.1 _ [] (B "PK") (by decide)
  · exact fetch_idempotent.2.2 isZipMagic (some (B "PK3")) (some []) none
      (B "PK3") 1 (by decide) (by decide)

end Spec2Proof
